import Mathlib

/-!
Verification development for the novel-downloader repository.

The shallow embedding below translates, from the JavaScript source:
  * the filename sanitizer and the derived EPUB filenames
    (src/unnamed/part_000 `sanitizeFilename`, src/src/worker-manager.js `epubExists`,
     src/unnamed/part_002 `buildEpub`),
  * the per-job download pipeline of the worker
    (src/unnamed/part_002 `downloadNovel`: manifest checks, initial pass,
     multi-pass retry, placeholder filling),
  * the worker-pool coordinator as an event-step system
    (src/src/worker-manager.js `WorkerPool`),
  * the redirect-following fetcher (src/unnamed/part_000 `fetchWithBypassRaw`),
  * the per-job concurrency limiter (the p-limit dependency, modelled from the spec).

Network fetches are modelled by oracles (functions from pass/index or URL to a
result); asynchronous interleavings are modelled by event sequences processed by
a step function, since the coordinator's handlers are serialized.
-/

namespace NovelDL

/- ───────────────────────── JS string primitives ───────────────────────── -/

/-- The character class removed by `sanitizeFilename`'s first replace
(the regex matching any of the nine characters below). -/
def badChar (c : Char) : Bool :=
  c = '<' || c = '>' || c = ':' || c = '"' || c = '/' ||
  c = '\\' || c = '|' || c = '?' || c = '*'

/-- JavaScript whitespace (the class matched by the regex escape for whitespace
and stripped by `String.prototype.trim`). -/
def isJsSpace (c : Char) : Bool :=
  c = ' ' || c = '\t' || c = '\n' || c = '\r' ||
  c.val = 11 || c.val = 12 || c.val = 160 || c.val = 0x1680 ||
  (0x2000 ≤ c.val && c.val ≤ 0x200A) ||
  c.val = 0x2028 || c.val = 0x2029 || c.val = 0x202F || c.val = 0x205F ||
  c.val = 0x3000 || c.val = 0xFEFF

/-- First stage of `sanitizeFilename`: drop the forbidden filename characters. -/
def removeBad (l : List Char) : List Char := l.filter (fun c => !(badChar c))

/-- Second stage of `sanitizeFilename`: replace every maximal run of whitespace
by a single space (the `replace` with the one-or-more-whitespace regex).
The flag records whether the previous character belonged to a run already
replaced. -/
def collapseWsAux : Bool → List Char → List Char
  | _, [] => []
  | prev, c :: cs =>
    if isJsSpace c then
      if prev then collapseWsAux true cs else ' ' :: collapseWsAux true cs
    else c :: collapseWsAux false cs

def collapseWs (l : List Char) : List Char := collapseWsAux false l

/-- Drop trailing JS whitespace (the right half of `trim`). -/
def trimEndWs : List Char → List Char
  | [] => []
  | c :: cs =>
    match trimEndWs cs with
    | [] => if isJsSpace c then [] else [c]
    | d :: r => c :: d :: r

/-- `String.prototype.trim`: drop leading then trailing JS whitespace. -/
def trimWs (l : List Char) : List Char := trimEndWs (l.dropWhile isJsSpace)

def sanitizeList (l : List Char) : List Char := trimWs (collapseWs (removeBad l))

/-- `sanitizeFilename` from src/unnamed/part_000: remove forbidden characters,
collapse whitespace runs to single spaces, trim. -/
def sanitizeFilename (s : String) : String := String.mk (sanitizeList s.data)

/-- The filename that `epubExists` (src/src/worker-manager.js) tests. -/
def epubExistsFilename (title : String) : String := sanitizeFilename title ++ ".epub"

/-- The filename that `buildEpub` (src/unnamed/part_002, epub-builder) writes. -/
def buildEpubFilename (title : String) : String := sanitizeFilename title ++ ".epub"

/-- Whole-string JS trim, used by the empty-content check of the fetch tasks. -/
def jsTrim (s : String) : String := String.mk (trimWs s.data)

/- ───────────────────── per-job download pipeline (worker) ───────────────────── -/

/-- A resolved chapter entry of the in-memory `chapters` array:
title plus HTML content. -/
structure Chapter where
  title : String
  content : String
deriving DecidableEq, Repr, Inhabited

/-- An entry of the manifest-time chapter list `novel.chapters`:
listed title plus source URL. -/
structure ChapterRef where
  title : String
  url : String
deriving DecidableEq, Repr, Inhabited

/-- The record returned by `fetchNovelDetail`, restricted to the fields the
download pipeline reads. Missing title is the empty string (falsy). -/
structure Novel where
  slug : String
  title : String
  author : String
  chapters : List ChapterRef
deriving DecidableEq, Repr, Inhabited

/-- The worker's `result` message payload: `success`, optional `skipped` flag,
optional error text and chapter counts (absent fields are `none`/`false`). -/
structure JobResult where
  success : Bool
  skipped : Bool
  error : Option String
  title : Option String
  totalChapters : Option Nat
  failedChapters : Option Nat
deriving DecidableEq, Repr

/-- The fixed placeholder body written for chapters that failed every pass. -/
def failMarker : String := "<p>[Failed to fetch after retries]</p>"

/-- One fragment fetch task (the body handed to the limiter, both in the
initial pass and in retry passes): call `fetchChapterContent`, treat an
exception or an empty/whitespace-only content as a failure leaving the slot
null, otherwise store title-or-listed-title and the content.
The oracle `fetch pass i` gives the outcome of `fetchChapterContent` for
chapter `i` during pass `pass` (`none` models a thrown error). -/
def runTask (fetch : Nat → Nat → Option Chapter) (pass i : Nat) (ref : ChapterRef) :
    Option Chapter :=
  match fetch pass i with
  | none => none
  | some c =>
    if jsTrim c.content = "" then none
    else some { title := if c.title = "" then ref.title else c.title, content := c.content }

/-- The initial pass: one fetch task per manifest entry, writing slot `i`. -/
def initialPass (fetch : Nat → Nat → Option Chapter) : Nat → List ChapterRef → List (Option Chapter)
  | _, [] => []
  | i, r :: rs => runTask fetch 0 i r :: initialPass fetch (i + 1) rs

/-- `chapters.map((ch, i) => ch === null ? i : -1).filter(i => i !== -1)`:
the indices whose slot is still null, in increasing order. -/
def failedIndices : Nat → List (Option Chapter) → List Nat
  | _, [] => []
  | i, none :: cs => i :: failedIndices (i + 1) cs
  | i, some _ :: cs => failedIndices (i + 1) cs

/-- One retry pass: re-run the fetch task for each listed index, writing the
outcome (possibly null again) into that slot. -/
def applyRetry (fetch : Nat → Nat → Option Chapter) (pass : Nat) (refs : List ChapterRef)
    (cs : List (Option Chapter)) (is : List Nat) : List (Option Chapter) :=
  is.foldl (fun acc i => acc.set i (runTask fetch pass i (refs.getD i default))) cs

/-- The retry controller (`for pass = 1..2`): collect the still-null indices,
stop if none remain, else re-run tasks for exactly those indices. Returns the
final array and a trace of `(pass number, indices retried)` per executed pass.
`fuel` is the number of passes remaining (2 at the call site). -/
def retryPasses (fetch : Nat → Nat → Option Chapter) (refs : List ChapterRef) :
    Nat → Nat → List (Option Chapter) → List (Option Chapter) × List (Nat × List Nat)
  | _, 0, cs => (cs, [])
  | pass, fuel + 1, cs =>
    let fi := failedIndices 0 cs
    if fi = [] then (cs, [])
    else
      let cs1 := applyRetry fetch pass refs cs fi
      let r := retryPasses fetch refs (pass + 1) fuel cs1
      (r.1, (pass, fi) :: r.2)

/-- The failure placeholder for slot `i`:
listed title, or a chapter-number default if the listed title is empty. -/
def placeholder (ref : ChapterRef) (i : Nat) : Chapter :=
  { title := if ref.title = "" then "Chapter " ++ toString (i + 1) else ref.title,
    content := failMarker }

/-- The final fill loop: replace each still-null slot by its placeholder. -/
def fillGo (refs : List ChapterRef) : Nat → List (Option Chapter) → List (Option Chapter)
  | _, [] => []
  | i, some c :: cs => some c :: fillGo refs (i + 1) cs
  | i, none :: cs => some (placeholder (refs.getD i default) i) :: fillGo refs (i + 1) cs

def fillPlaceholders (refs : List ChapterRef) (cs : List (Option Chapter)) :
    List (Option Chapter) := fillGo refs 0 cs

/-- `failedCount`: the number of still-null slots counted by the fill loop. -/
def countFails (cs : List (Option Chapter)) : Nat := (cs.filter Option.isNone).length

/-- `downloadNovel` of the worker (src/unnamed/part_002): manifest checks
(missing title → failure; zero chapters → failure; truthy `maxChapters`
exceeded → failure flagged skipped), then initial pass, up to two retry
passes, placeholder filling, and the success result. The second component is
the final chapters array (`none` when the fragment-fetch phase is never
reached). `fetchNovelDetail`'s outcome is the `novel` argument. -/
def downloadNovelW (maxChapters : Nat) (fetch : Nat → Nat → Option Chapter)
    (novel : Novel) : JobResult × Option (List (Option Chapter)) :=
  if novel.title = "" then
    ({ success := false, skipped := false,
       error := some ("Could not find novel: " ++ novel.slug),
       title := none, totalChapters := none, failedChapters := none }, none)
  else if novel.chapters.length = 0 then
    ({ success := false, skipped := false,
       error := some ("No chapters found for " ++ novel.title),
       title := none, totalChapters := none, failedChapters := none }, none)
  else if maxChapters ≠ 0 ∧ novel.chapters.length > maxChapters then
    ({ success := false, skipped := true,
       error := some (toString novel.chapters.length ++ " chapters exceeds limit of " ++
         toString maxChapters),
       title := none, totalChapters := none, failedChapters := none }, none)
  else
    let cs0 := initialPass fetch 0 novel.chapters
    let after := (retryPasses fetch novel.chapters 1 2 cs0).1
    ({ success := true, skipped := false, error := none, title := some novel.title,
       totalChapters := some novel.chapters.length,
       failedChapters := some (countFails after) },
     some (fillPlaceholders novel.chapters after))

/- ───────────────────── concurrency limiter (spec-modelled) ───────────────────── -/

/-- State of one job's concurrency limiter: number of running task bodies and
number of queued task bodies. -/
structure LimiterState where
  active : Nat
  pending : Nat
deriving DecidableEq, Repr

inductive LimEvent where
  | submit
  | complete
deriving DecidableEq, Repr

/-- Modelled from the spec: the Concurrency Limiter (section 4.3) is the
p-limit dependency, whose source is not under src/. A submitted task starts
immediately when fewer than `K` are active, otherwise it queues; when a task
completes, a queued task (if any) starts in its place. -/
def limStep (K : Nat) (s : LimiterState) : LimEvent → LimiterState
  | .submit =>
    if s.active < K then { active := s.active + 1, pending := s.pending }
    else { active := s.active, pending := s.pending + 1 }
  | .complete =>
    if s.active = 0 then s
    else if 0 < s.pending then { active := s.active, pending := s.pending - 1 }
    else { active := s.active - 1, pending := 0 }

def limInit : LimiterState := { active := 0, pending := 0 }

/- ───────────────────── worker pool coordinator ───────────────────── -/

/-- How a job's `result` message is classified by `_handleMessage`. -/
inductive Outcome where
  | ok
  | skip
  | fail
deriving DecidableEq, Repr

/-- The coordinator's state (`WorkerPool`): workers are named by their `_id`.
`idle`, `queue` and the stats counters mirror the fields of the class;
`busy` lists the workers holding an unresolved `download`; `respawning`
lists faulted workers whose replacement's `ready` is still awaited
(both implicit in the JavaScript object graph). `pendingDone` is whether
`_resolveAllDone` is set; `resolutions` counts resolver invocations. -/
structure PoolState where
  size : Nat
  idle : List Nat
  busy : List Nat
  respawning : List Nat
  queue : List Nat
  succeeded : Nat
  failed : Nat
  skipped : Nat
  inProgress : Nat
  pendingDone : Bool
  resolutions : Nat
deriving DecidableEq, Repr

/-- Result of the `_dispatch` while-loop on the fields it touches. -/
structure DispatchRes where
  idle : List Nat
  queue : List Nat
  busy : List Nat
  inProgress : Nat
deriving DecidableEq, Repr

/-- `_dispatch`: while an idle worker and a queued job both exist, pair them,
count the job in-flight and send `download` (the worker becomes busy). -/
def dispatchGo : List Nat → List Nat → List Nat → Nat → DispatchRes
  | w :: ws, _ :: js, busy, ip => dispatchGo ws js (busy ++ [w]) (ip + 1)
  | idle, queue, busy, ip => { idle := idle, queue := queue, busy := busy, inProgress := ip }

def dispatch (s : PoolState) : PoolState :=
  let r := dispatchGo s.idle s.queue s.busy s.inProgress
  { s with idle := r.idle, queue := r.queue, busy := r.busy, inProgress := r.inProgress }

/-- `_checkDone`: resolve and clear the pending completion notification when
the queue is empty and nothing is in flight. -/
def checkDone (s : PoolState) : PoolState :=
  if s.inProgress = 0 ∧ s.queue = [] ∧ s.pendingDone then
    { s with pendingDone := false, resolutions := s.resolutions + 1 }
  else s

/-- Classify a `result` message into the stats (`succeeded`/`skipped`/`failed`). -/
def bumpStats (s : PoolState) (o : Outcome) : PoolState :=
  match o with
  | .ok => { s with succeeded := s.succeeded + 1 }
  | .skip => { s with skipped := s.skipped + 1 }
  | .fail => { s with failed := s.failed + 1 }

/-- Events handled by the coordinator. `result w o` and `fault w` carry the
precondition that `w` holds an unresolved download (a worker only reports a
result for a job it was sent, and a fault is an uncaught error while running
a job — the spec counts it as one failed job); events violating it are
no-ops. `ready w` is the replacement's ready message after a fault of `w`.
`wait` is a `waitUntilDone()` call. -/
inductive PoolEvent where
  | enqueue (jobs : List Nat)
  | result (w : Nat) (o : Outcome)
  | fault (w : Nat)
  | ready (w : Nat)
  | wait
deriving DecidableEq, Repr

/-- One serialized coordinator handler, mirroring `enqueue`, the `result`
branch of `_handleMessage`, `_handleError` (respawn with same identity,
replacement idle only after its `ready`), the replacement-ready continuation,
and `waitUntilDone`. -/
def step (s : PoolState) : PoolEvent → PoolState
  | .enqueue jobs => dispatch { s with queue := s.queue ++ jobs }
  | .result w o =>
    if w ∈ s.busy then
      checkDone (dispatch (bumpStats
        { s with
          inProgress := s.inProgress - 1
          busy := s.busy.erase w
          idle := s.idle ++ [w] } o))
    else s
  | .fault w =>
    if w ∈ s.busy then
      { s with
        inProgress := s.inProgress - 1
        failed := s.failed + 1
        busy := s.busy.erase w
        respawning := s.respawning ++ [w] }
    else s
  | .ready w =>
    if w ∈ s.respawning then
      checkDone (dispatch
        { s with respawning := s.respawning.erase w, idle := s.idle ++ [w] })
    else s
  | .wait =>
    if s.inProgress = 0 ∧ s.queue = [] then { s with resolutions := s.resolutions + 1 }
    else { s with pendingDone := true }

/-- The pool right after `start()`: all `size` workers (ids 1..size) ready and
idle, nothing queued or in flight. -/
def initState (size : Nat) : PoolState :=
  { size := size
    idle := List.range' 1 size
    busy := []
    respawning := []
    queue := []
    succeeded := 0
    failed := 0
    skipped := 0
    inProgress := 0
    pendingDone := false
    resolutions := 0 }

/-- Coordinator bookkeeping invariant: every worker id appears in exactly one
of idle/busy/respawning, the in-flight count equals the number of busy
workers, and the three sets together hold exactly the `size` workers. -/
def poolInv (s : PoolState) : Prop :=
  (s.idle ++ s.busy ++ s.respawning).Nodup ∧
  s.inProgress = s.busy.length ∧
  s.idle.length + s.busy.length + s.respawning.length = s.size

/- ───────────────────── redirect-following fetcher ───────────────────── -/

/-- The response surface `fetchWithBypassRaw` inspects: status code, the
location header, and the body. -/
structure HttpResp where
  statusCode : Nat
  location : Option String
  body : String
deriving DecidableEq, Repr

/-- Outcome of one fetch call: resolved body or rejection message. -/
inductive FetchRes where
  | ok (body : String)
  | err (msg : String)
deriving DecidableEq, Repr

/-- The redirect branch guard of `fetchWithBypassRaw`. -/
def isRedirect (r : HttpResp) : Bool :=
  decide (300 ≤ r.statusCode) && decide (r.statusCode < 400) && r.location.isSome

/-- `fetchWithBypassRaw` over a network oracle `net` (`none` models a request
error or timeout) and a URL-resolution function `resolve loc url` (the `new
URL(location, url).href` computation). The redirect branch re-issues the
request by plain recursion with no counter of its own; `fuel` bounds the
recursion depth for the embedding, with `none` meaning the call has not
resolved within `fuel` requests (so divergence is `none` for every fuel). -/
def fetchRawFuel (resolve : String → String → String) (net : String → Option HttpResp) :
    Nat → String → Option FetchRes
  | 0, _ => none
  | fuel + 1, url =>
    match net url with
    | none => some (FetchRes.err ("request error for " ++ url))
    | some r =>
      if isRedirect r then
        fetchRawFuel resolve net fuel (resolve (r.location.getD "") url)
      else if r.statusCode < 200 || 300 ≤ r.statusCode then
        some (FetchRes.err ("HTTP " ++ toString r.statusCode ++ " for " ++ url))
      else some (FetchRes.ok r.body)

/-- The redirect chain from `url` reaches a terminal (non-redirect) response
with outcome `v`. -/
inductive FetchTerm (resolve : String → String → String) (net : String → Option HttpResp) :
    String → FetchRes → Prop where
  | reqErr (url : String) : net url = none →
      FetchTerm resolve net url (FetchRes.err ("request error for " ++ url))
  | httpErr (url : String) (r : HttpResp) : net url = some r → isRedirect r = false →
      (r.statusCode < 200 || 300 ≤ r.statusCode) = true →
      FetchTerm resolve net url (FetchRes.err ("HTTP " ++ toString r.statusCode ++ " for " ++ url))
  | okRes (url : String) (r : HttpResp) : net url = some r → isRedirect r = false →
      (r.statusCode < 200 || 300 ≤ r.statusCode) = false →
      FetchTerm resolve net url (FetchRes.ok r.body)
  | redir (url : String) (r : HttpResp) (v : FetchRes) : net url = some r →
      isRedirect r = true →
      FetchTerm resolve net (resolve (r.location.getD "") url) v →
      FetchTerm resolve net url v

/-- Location headers used by the cyclic-redirect network below. -/
def urlA : String := "https://a.example/"

def urlB : String := "https://b.example/"

/-- A two-URL redirect cycle: each of the two URLs 301-redirects to the other. -/
def cycNet : String → Option HttpResp := fun u =>
  if u = urlA then some { statusCode := 301, location := some urlB, body := "" }
  else if u = urlB then some { statusCode := 301, location := some urlA, body := "" }
  else none

/-- Absolute-location resolution (the redirect targets above are absolute). -/
def cycResolve : String → String → String := fun loc _ => loc

/-- Decidable statement of the placeholder obligation: every slot that was
still null after the retry passes holds, in the final array, exactly the
deterministic placeholder for its index. -/
def placeholderOk (refs : List ChapterRef) (after arr : List (Option Chapter)) : Bool :=
  (List.range after.length).all (fun i =>
    decide (after.getD i (some default) = none →
      arr.getD i none = some (placeholder (refs.getD i default) i)))

/- ───────────────────── sanitizer output shape predicates ───────────────────── -/

/-- The list starts with a non-whitespace character (or is empty). -/
def headNotWs : List Char → Bool
  | [] => true
  | c :: _ => !(isJsSpace c)

/-- The list ends with a non-whitespace character (or is empty). -/
def lastNotWs : List Char → Bool
  | [] => true
  | [c] => !(isJsSpace c)
  | _ :: c :: cs => lastNotWs (c :: cs)

/-- Every whitespace character in the list is the plain space. -/
def spacesOk (l : List Char) : Bool := l.all (fun c => !(isJsSpace c) || c = ' ')

/-- No two adjacent whitespace characters. -/
def noAdjWs : List Char → Bool
  | a :: b :: cs => (!(isJsSpace a && isJsSpace b)) && noAdjWs (b :: cs)
  | _ => true

/- ───────────────────── concrete inputs used by witnesses ───────────────────── -/

/-- A fetch oracle on which every request fails. -/
def fetchNone : Nat → Nat → Option Chapter := fun _ _ => none

/-- A fetch oracle that resolves only chapter 0. -/
def fetchFirstOnly : Nat → Nat → Option Chapter :=
  fun _ i => if i = 0 then some { title := "t0", content := "body" } else none

def novTwo : Novel :=
  { slug := "s", title := "T", author := "A",
    chapters := [{ title := "c1", url := "u1" }, { title := "", url := "u2" }] }

def novNoTitle : Novel :=
  { slug := "x", title := "", author := "A", chapters := [] }

def novThree : Novel :=
  { slug := "s", title := "T", author := "A",
    chapters := [{ title := "a", url := "u1" }, { title := "b", url := "u2" },
      { title := "c", url := "u3" }] }

def arrTwoFail : List (Option Chapter) :=
  [some { title := "c1", content := failMarker },
    some { title := "Chapter 2", content := failMarker }]

def arrOneFail : List (Option Chapter) :=
  [some { title := "t0", content := "body" },
    some { title := "Chapter 2", content := failMarker }]

/- ───────────────────── pipeline lemmas ───────────────────── -/

lemma length_initialPass (f : Nat → Nat → Option Chapter) :
    ∀ (i : Nat) (rs : List ChapterRef), (initialPass f i rs).length = rs.length := by
  intro i rs
  induction rs generalizing i with
  | nil => rfl
  | cons r rs ih => simp [initialPass, ih]

lemma length_applyRetry (f : Nat → Nat → Option Chapter) (p : Nat) (refs : List ChapterRef) :
    ∀ (is : List Nat) (cs : List (Option Chapter)),
      (applyRetry f p refs cs is).length = cs.length := by
  intro is
  induction is with
  | nil => intro cs; rfl
  | cons i is ih =>
    intro cs
    show (applyRetry f p refs (cs.set i (runTask f p i (refs.getD i default))) is).length = _
    rw [ih, List.length_set]

lemma length_retryPasses (f : Nat → Nat → Option Chapter) (refs : List ChapterRef) :
    ∀ (fuel pass : Nat) (cs : List (Option Chapter)),
      (retryPasses f refs pass fuel cs).1.length = cs.length := by
  intro fuel
  induction fuel with
  | zero => intro pass cs; rfl
  | succ fuel ih =>
    intro pass cs
    by_cases h : failedIndices 0 cs = []
    · simp [retryPasses, h]
    · simp only [retryPasses, h, if_false]
      rw [ih, length_applyRetry]

lemma length_fillGo (refs : List ChapterRef) :
    ∀ (i : Nat) (cs : List (Option Chapter)), (fillGo refs i cs).length = cs.length := by
  intro i cs
  induction cs generalizing i with
  | nil => rfl
  | cons c cs ih => cases c <;> simp [fillGo, ih]

lemma fillGo_all_isSome (refs : List ChapterRef) :
    ∀ (i : Nat) (cs : List (Option Chapter)),
      (fillGo refs i cs).all Option.isSome = true := by
  intro i cs
  induction cs generalizing i with
  | nil => rfl
  | cons c cs ih => cases c <;> simp [fillGo, ih i.succ]

lemma runTask_of_fetch_none (f : Nat → Nat → Option Chapter)
    (hf : ∀ p i, f p i = none) (p i : Nat) (ref : ChapterRef) :
    runTask f p i ref = none := by
  simp [runTask, hf]

lemma initialPass_allfail (f : Nat → Nat → Option Chapter) (hf : ∀ p i, f p i = none) :
    ∀ (i : Nat) (rs : List ChapterRef),
      initialPass f i rs = List.replicate rs.length none := by
  intro i rs
  induction rs generalizing i with
  | nil => rfl
  | cons r rs ih =>
    simp [initialPass, runTask_of_fetch_none f hf, List.replicate, ih]

lemma replicate_set_none :
    ∀ (n i : Nat), (List.replicate n (none : Option Chapter)).set i none = List.replicate n none := by
  intro n
  induction n with
  | zero => intro i; rfl
  | succ n ih =>
    intro i
    cases i with
    | zero => simp [List.replicate]
    | succ i => simp [List.replicate, List.set, ih]

lemma applyRetry_allfail (f : Nat → Nat → Option Chapter) (hf : ∀ p i, f p i = none)
    (p : Nat) (refs : List ChapterRef) (n : Nat) :
    ∀ (is : List Nat), applyRetry f p refs (List.replicate n none) is = List.replicate n none := by
  intro is
  induction is with
  | nil => rfl
  | cons i is ih =>
    show applyRetry f p refs ((List.replicate n none).set i (runTask f p i (refs.getD i default))) is = _
    rw [runTask_of_fetch_none f hf, replicate_set_none, ih]

lemma retryPasses_allfail (f : Nat → Nat → Option Chapter) (hf : ∀ p i, f p i = none)
    (refs : List ChapterRef) (n : Nat) :
    ∀ (fuel pass : Nat),
      (retryPasses f refs pass fuel (List.replicate n none)).1 = List.replicate n none := by
  intro fuel
  induction fuel with
  | zero => intro pass; rfl
  | succ fuel ih =>
    intro pass
    by_cases h : failedIndices 0 (List.replicate n (none : Option Chapter)) = []
    · simp [retryPasses, h]
    · simp only [retryPasses, h, if_false]
      rw [applyRetry_allfail f hf, ih]

lemma fillGo_replicate (refs : List ChapterRef) :
    ∀ (n k : Nat), fillGo refs k (List.replicate n none) =
      (List.range' k n).map (fun i => some (placeholder (refs.getD i default) i)) := by
  intro n
  induction n with
  | zero => intro k; rfl
  | succ n ih => intro k; simp [List.replicate, fillGo, List.range', ih]

lemma fillGo_getD_none (refs : List ChapterRef) :
    ∀ (cs : List (Option Chapter)) (k j : Nat),
      cs.getD j (some default) = none →
      (fillGo refs k cs).getD j none = some (placeholder (refs.getD (k + j) default) (k + j)) := by
  intro cs
  induction cs with
  | nil => intro k j h; simp [List.getD] at h
  | cons c cs ih =>
    intro k j h
    cases j with
    | zero =>
      cases c with
      | some c => simp at h
      | none => simp [fillGo]
    | succ j =>
      have hkj : k + (j + 1) = (k + 1) + j := by omega
      cases c with
      | some c =>
        simp only [List.getD_cons_succ] at h
        rw [hkj]
        simpa [fillGo] using ih (k + 1) j h
      | none =>
        simp only [List.getD_cons_succ] at h
        rw [hkj]
        simpa [fillGo] using ih (k + 1) j h

lemma placeholderOk_fillGo (refs : List ChapterRef) (after : List (Option Chapter)) :
    placeholderOk refs after (fillGo refs 0 after) = true := by
  unfold placeholderOk
  rw [List.all_eq_true]
  intro i _
  rw [decide_eq_true_eq]
  intro h
  simpa using fillGo_getD_none refs after 0 i h

/- ───────────────────── claims C1-C4, C9 ───────────────────── -/

/-- Claim C1: for every job that reaches the fragment-fetching phase, the
chapter array produced after the initial pass, the retry passes and
placeholder filling has the manifest-time length and contains no null slot;
in particular, when every fetch in every pass fails the job completes with
the all-placeholder array (the pipeline is a total function, so it cannot
hang). -/
theorem c1_fragment_array_complete (m : Nat) (fetch : Nat → Nat → Option Chapter)
    (nov : Novel) (arr : List (Option Chapter))
    (h : (downloadNovelW m fetch nov).2 = some arr) :
    arr.length = nov.chapters.length ∧
    arr.all Option.isSome = true ∧
    ((∀ p i, fetch p i = none) →
      arr = (List.range' 0 nov.chapters.length).map
        (fun i => some (placeholder (nov.chapters.getD i default) i))) := by
  unfold downloadNovelW at h
  split at h
  · simp at h
  · split at h
    · simp at h
    · split at h
      · simp at h
      · simp only [Option.some.injEq] at h
        subst h
        refine ⟨?_, ?_, ?_⟩
        · rw [fillPlaceholders, length_fillGo, length_retryPasses, length_initialPass]
        · exact fillGo_all_isSome _ _ _
        · intro hf
          rw [fillPlaceholders, initialPass_allfail fetch hf,
            retryPasses_allfail fetch hf, fillGo_replicate]

/-- Witness for C1: a two-chapter novel against an always-failing fetch
reaches the fragment phase and yields the two expected placeholders. -/
theorem c1_fragment_array_complete_witness :
    (downloadNovelW 2000 fetchNone novTwo).2 = some arrTwoFail ∧
    arrTwoFail.length = novTwo.chapters.length ∧
    arrTwoFail.all Option.isSome = true := by
  refine ⟨by decide, ?_, ?_⟩
  · exact (c1_fragment_array_complete 2000 fetchNone novTwo arrTwoFail (by decide)).1
  · exact (c1_fragment_array_complete 2000 fetchNone novTwo arrTwoFail (by decide)).2.1

/-- Claim C2: the retry controller, entered with pass number 1 and two passes
of budget as at its call site, executes at most two passes; a pass re-runs
fetch tasks for exactly the still-null indices, and no further pass is issued
once no null index remains. -/
theorem c2_retry_controller (fetch : Nat → Nat → Option Chapter)
    (refs : List ChapterRef) (cs : List (Option Chapter)) :
    (retryPasses fetch refs 1 2 cs).2.length ≤ 2 ∧
    (failedIndices 0 cs = [] → retryPasses fetch refs 1 2 cs = (cs, [])) ∧
    retryPasses fetch refs 1 2 cs =
      (if failedIndices 0 cs = [] then (cs, [])
       else
         let cs1 := applyRetry fetch 1 refs cs (failedIndices 0 cs)
         if failedIndices 0 cs1 = [] then (cs1, [(1, failedIndices 0 cs)])
         else (applyRetry fetch 2 refs cs1 (failedIndices 0 cs1),
           [(1, failedIndices 0 cs), (2, failedIndices 0 cs1)])) := by
  have hc : retryPasses fetch refs 1 2 cs =
      (if failedIndices 0 cs = [] then (cs, [])
       else
         let cs1 := applyRetry fetch 1 refs cs (failedIndices 0 cs)
         if failedIndices 0 cs1 = [] then (cs1, [(1, failedIndices 0 cs)])
         else (applyRetry fetch 2 refs cs1 (failedIndices 0 cs1),
           [(1, failedIndices 0 cs), (2, failedIndices 0 cs1)])) := by
    by_cases h1 : failedIndices 0 cs = []
    · simp [retryPasses, h1]
    · by_cases h2 : failedIndices 0 (applyRetry fetch 1 refs cs (failedIndices 0 cs)) = []
      · simp [retryPasses, h1, h2]
      · simp [retryPasses, h1, h2]
  refine ⟨?_, ?_, hc⟩
  · by_cases h1 : failedIndices 0 cs = []
    · rw [hc, if_pos h1]
      simp
    · rw [hc, if_neg h1]
      dsimp only
      split <;> simp
  · intro h
    rw [hc, if_pos h]

/-- Claim C3: in the fragment phase, every slot still null after the final
retry pass is filled with the deterministic placeholder (original title or
the chapter-number default, fixed failure-marker body); the number of such
slots is reported as the failed-chapter count of the result, and the result
reports success regardless of that count. -/
theorem c3_placeholders_and_failed_count (m : Nat) (fetch : Nat → Nat → Option Chapter)
    (nov : Novel) (arr : List (Option Chapter))
    (h : (downloadNovelW m fetch nov).2 = some arr) :
    (downloadNovelW m fetch nov).1.success = true ∧
    (downloadNovelW m fetch nov).1.skipped = false ∧
    (downloadNovelW m fetch nov).1.failedChapters =
      some (countFails (retryPasses fetch nov.chapters 1 2 (initialPass fetch 0 nov.chapters)).1) ∧
    arr = fillGo nov.chapters 0 (retryPasses fetch nov.chapters 1 2 (initialPass fetch 0 nov.chapters)).1 ∧
    placeholderOk nov.chapters
      (retryPasses fetch nov.chapters 1 2 (initialPass fetch 0 nov.chapters)).1 arr = true := by
  unfold downloadNovelW at h
  split at h
  · simp at h
  · split at h
    · simp at h
    · split at h
      · simp at h
      · rename_i h1 h2 h3
        simp only [Option.some.injEq] at h
        have heq : downloadNovelW m fetch nov =
            ({ success := true, skipped := false, error := none, title := some nov.title,
               totalChapters := some nov.chapters.length,
               failedChapters := some (countFails
                 (retryPasses fetch nov.chapters 1 2 (initialPass fetch 0 nov.chapters)).1) },
             some (fillGo nov.chapters 0
               (retryPasses fetch nov.chapters 1 2 (initialPass fetch 0 nov.chapters)).1)) := by
          unfold downloadNovelW
          rw [if_neg h1, if_neg h2, if_neg h3]
          rfl
        rw [heq]
        subst h
        exact ⟨rfl, rfl, rfl, rfl, placeholderOk_fillGo _ _⟩

/-- Witness for C3: with a fetch that resolves only chapter 0, the job
succeeds with failed-chapter count 1 and a placeholder in slot 1. -/
theorem c3_placeholders_and_failed_count_witness :
    (downloadNovelW 2000 fetchFirstOnly novTwo).2 = some arrOneFail ∧
    (downloadNovelW 2000 fetchFirstOnly novTwo).1.success = true ∧
    (downloadNovelW 2000 fetchFirstOnly novTwo).1.failedChapters =
      some (countFails
        (retryPasses fetchFirstOnly novTwo.chapters 1 2
          (initialPass fetchFirstOnly 0 novTwo.chapters)).1) := by
  refine ⟨by decide, ?_, ?_⟩
  · exact (c3_placeholders_and_failed_count 2000 fetchFirstOnly novTwo arrOneFail (by decide)).1
  · exact (c3_placeholders_and_failed_count 2000 fetchFirstOnly novTwo arrOneFail (by decide)).2.2.1

/-- Claim C4: in the manifest phase, a missing title or an empty chapter list
terminates the job with a failed (not skipped) result, and a chapter count
above a configured (truthy) ceiling terminates it with the skipped flag set;
in both cases no chapter array is produced and the outcome does not depend on
the fetch oracle at all (no fragment fetch is attempted). -/
theorem c4_manifest_failures (m : Nat) (f g : Nat → Nat → Option Chapter) (nov : Novel) :
    ((nov.title = "" ∨ nov.chapters.length = 0) →
      (downloadNovelW m f nov).1.success = false ∧
      (downloadNovelW m f nov).1.skipped = false ∧
      (downloadNovelW m f nov).2 = none ∧
      downloadNovelW m f nov = downloadNovelW m g nov) ∧
    (nov.title ≠ "" → nov.chapters.length ≠ 0 → m ≠ 0 → nov.chapters.length > m →
      (downloadNovelW m f nov).1.success = false ∧
      (downloadNovelW m f nov).1.skipped = true ∧
      (downloadNovelW m f nov).2 = none ∧
      downloadNovelW m f nov = downloadNovelW m g nov) := by
  constructor
  · intro h
    rcases h with h | h
    · simp [downloadNovelW, h]
    · by_cases ht : nov.title = ""
      · simp [downloadNovelW, ht]
      · simp [downloadNovelW, ht, h]
  · intro h1 h2 h3 h4
    simp [downloadNovelW, h1, h2, h3, h4]

/-- Witness for C4: a titleless novel fails without producing chapters, and a
three-chapter novel against a ceiling of 2 is skipped. -/
theorem c4_manifest_failures_witness :
    ((downloadNovelW 2000 fetchNone novNoTitle).1.success = false ∧
      (downloadNovelW 2000 fetchNone novNoTitle).2 = none) ∧
    ((downloadNovelW 2 fetchNone novThree).1.skipped = true ∧
      (downloadNovelW 2 fetchNone novThree).2 = none) := by
  constructor
  · have h := (c4_manifest_failures 2000 fetchNone fetchNone novNoTitle).1 (Or.inl (by decide))
    exact ⟨h.1, h.2.2.1⟩
  · have h := (c4_manifest_failures 2 fetchNone fetchNone novThree).2
      (by decide) (by decide) (by decide) (by decide)
    exact ⟨h.2.1, h.2.2.1⟩

lemma limStep_active_le (K : Nat) (s : LimiterState) (e : LimEvent)
    (h : s.active ≤ K) : (limStep K s e).active ≤ K := by
  cases e with
  | submit =>
    simp only [limStep]
    split
    · next hlt => exact hlt
    · exact h
  | complete =>
    simp only [limStep]
    split
    · exact h
    · split
      · exact h
      · show s.active - 1 ≤ K
        omega

lemma foldl_limStep_active_le (K : Nat) :
    ∀ (evs : List LimEvent) (s : LimiterState), s.active ≤ K →
      (List.foldl (limStep K) s evs).active ≤ K := by
  intro evs
  induction evs with
  | nil => intro s h; exact h
  | cons e evs ih => intro s h; exact ih _ (limStep_active_le K s e h)

/-- Claim C9: within one job, the limiter never has more than `K` task bodies
active at once: after any prefix of any submit/complete event sequence from
the idle limiter, the active count is at most `K`. -/
theorem c9_concurrency_cap (K : Nat) (evs : List LimEvent) (n : Nat) :
    (List.foldl (limStep K) limInit (evs.take n)).active ≤ K :=
  foldl_limStep_active_le K (evs.take n) limInit (Nat.zero_le K)

/- ───────────────────── claim C8: fetcher redirects ───────────────────── -/

lemma fetchRawFuel_term_sound (resolve : String → String → String)
    (net : String → Option HttpResp) :
    ∀ (fuel : Nat) (url : String) (v : FetchRes),
      fetchRawFuel resolve net fuel url = some v → FetchTerm resolve net url v := by
  intro fuel
  induction fuel with
  | zero => intro url v h; simp [fetchRawFuel] at h
  | succ fuel ih =>
    intro url v h
    unfold fetchRawFuel at h
    cases hn : net url with
    | none =>
      rw [hn] at h
      dsimp only at h
      simp only [Option.some.injEq] at h
      rw [← h]
      exact FetchTerm.reqErr url hn
    | some r =>
      rw [hn] at h
      dsimp only at h
      by_cases hr : isRedirect r = true
      · rw [if_pos hr] at h
        exact FetchTerm.redir url r v hn hr (ih _ v h)
      · rw [if_neg hr] at h
        by_cases hs : (r.statusCode < 200 || 300 ≤ r.statusCode) = true
        · rw [if_pos hs] at h
          simp only [Option.some.injEq] at h
          rw [← h]
          exact FetchTerm.httpErr url r hn (Bool.not_eq_true _ ▸ hr) hs
        · rw [if_neg hs] at h
          simp only [Option.some.injEq] at h
          rw [← h]
          exact FetchTerm.okRes url r hn (Bool.not_eq_true _ ▸ hr)
            (Bool.not_eq_true _ ▸ hs)

lemma fetchTerm_complete (resolve : String → String → String)
    (net : String → Option HttpResp) :
    ∀ (url : String) (v : FetchRes), FetchTerm resolve net url v →
      ∃ fuel, fetchRawFuel resolve net fuel url = some v := by
  intro url v h
  induction h with
  | reqErr url hn => exact ⟨1, by simp [fetchRawFuel, hn]⟩
  | httpErr url r hn hr hs => exact ⟨1, by simp [fetchRawFuel, hn, hr, hs]⟩
  | okRes url r hn hr hs => exact ⟨1, by simp [fetchRawFuel, hn, hr, hs]⟩
  | redir url r v hn hr _ ih =>
    obtain ⟨fuel, hf⟩ := ih
    exact ⟨fuel + 1, by simp [fetchRawFuel, hn, hr, hf]⟩

/-- Counterexample for C8: on the two-URL redirect cycle, a single
`fetchWithBypassRaw` call never resolves, whatever recursion depth is
allowed — the fixed retry bound does not make it terminate, because the
redirect re-issue consumes no retry budget and has no counter of its own. -/
theorem c8_counterexample :
    ¬ ∃ fuel v, fetchRawFuel cycResolve cycNet fuel urlA = some v := by
  have hloop : ∀ fuel : Nat,
      fetchRawFuel cycResolve cycNet fuel urlA = none ∧
      fetchRawFuel cycResolve cycNet fuel urlB = none := by
    intro fuel
    induction fuel with
    | zero => exact ⟨rfl, rfl⟩
    | succ fuel ih =>
      constructor
      · show fetchRawFuel cycResolve cycNet fuel urlB = none
        exact ih.2
      · show fetchRawFuel cycResolve cycNet fuel urlA = none
        exact ih.1
  rintro ⟨fuel, v, h⟩
  rw [(hloop fuel).1] at h
  exact Option.noConfusion h

/-- Claim C8 (amended): the fetcher follows an HTTP redirect by re-issuing
the request against the resolved target location, with no redirect counter
and without consuming the retry budget; consequently a single fetch call
terminates (for some recursion depth) precisely when the redirect chain from
the URL reaches a non-redirect outcome — and therefore need not terminate on
a cyclic redirect chain. -/
theorem c8_redirect_termination (resolve : String → String → String)
    (net : String → Option HttpResp) (url : String) :
    (∃ fuel v, fetchRawFuel resolve net fuel url = some v) ↔
      (∃ v, FetchTerm resolve net url v) := by
  constructor
  · rintro ⟨fuel, v, h⟩
    exact ⟨v, fetchRawFuel_term_sound resolve net fuel url v h⟩
  · rintro ⟨v, h⟩
    obtain ⟨fuel, hf⟩ := fetchTerm_complete resolve net url v h
    exact ⟨fuel, v, hf⟩

/- ───────────────────── pool bookkeeping lemmas ───────────────────── -/

lemma dispatchGo_nil_idle (q b : List Nat) (ip : Nat) :
    dispatchGo [] q b ip = { idle := [], queue := q, busy := b, inProgress := ip } := by
  cases q <;> rfl

lemma dispatchGo_nil_queue (idle b : List Nat) (ip : Nat) :
    dispatchGo idle [] b ip = { idle := idle, queue := [], busy := b, inProgress := ip } := by
  cases idle <;> rfl

lemma dispatchGo_cons (w : Nat) (ws : List Nat) (j : Nat) (js b : List Nat) (ip : Nat) :
    dispatchGo (w :: ws) (j :: js) b ip = dispatchGo ws js (b ++ [w]) (ip + 1) := rfl

lemma dispatchGo_perm : ∀ (idle q b : List Nat) (ip : Nat),
    ((dispatchGo idle q b ip).idle ++ (dispatchGo idle q b ip).busy).Perm (idle ++ b) := by
  intro idle
  induction idle with
  | nil =>
    intro q b ip
    rw [dispatchGo_nil_idle]
  | cons w ws ih =>
    intro q b ip
    cases q with
    | nil => rw [dispatchGo_nil_queue]
    | cons j js =>
      rw [dispatchGo_cons]
      refine (ih js (b ++ [w]) (ip + 1)).trans ?_
      refine (List.Perm.append_left ws (List.perm_append_singleton w b)).trans ?_
      exact List.perm_middle

lemma dispatchGo_ip : ∀ (idle q b : List Nat) (ip : Nat), ip = b.length →
    (dispatchGo idle q b ip).inProgress = (dispatchGo idle q b ip).busy.length := by
  intro idle
  induction idle with
  | nil =>
    intro q b ip h
    rw [dispatchGo_nil_idle]
    exact h
  | cons w ws ih =>
    intro q b ip h
    cases q with
    | nil =>
      rw [dispatchGo_nil_queue]
      exact h
    | cons j js =>
      rw [dispatchGo_cons]
      exact ih js (b ++ [w]) (ip + 1) (by simp [h])

lemma perm_snoc_erase (w : Nat) (A B : List Nat) (h : w ∈ B) :
    ((A ++ [w]) ++ B.erase w).Perm (A ++ B) := by
  have e : (A ++ [w]) ++ B.erase w = A ++ (w :: B.erase w) := by
    simp [List.append_assoc]
  rw [e]
  exact List.Perm.append_left A (List.perm_cons_erase h).symm

lemma perm_fault_move (w : Nat) (A B C : List Nat) (h : w ∈ B) :
    ((A ++ B.erase w) ++ (C ++ [w])).Perm ((A ++ B) ++ C) := by
  refine (List.Perm.append_left _ (List.perm_append_singleton w C)).trans ?_
  have e1 : (A ++ B.erase w) ++ (w :: C) = A ++ (B.erase w ++ w :: C) := by
    rw [List.append_assoc]
  have e2 : (A ++ B) ++ C = A ++ (B ++ C) := by rw [List.append_assoc]
  rw [e1, e2]
  refine List.Perm.append_left A ?_
  refine List.perm_middle.trans ?_
  have e3 : (w :: B.erase w) ++ C = w :: (B.erase w ++ C) := rfl
  rw [← e3]
  exact List.Perm.append_right C (List.perm_cons_erase h).symm

lemma perm_ready_move (w : Nat) (A B C : List Nat) (h : w ∈ C) :
    (((A ++ [w]) ++ B) ++ C.erase w).Perm ((A ++ B) ++ C) := by
  have e1 : ((A ++ [w]) ++ B) ++ C.erase w = A ++ (w :: (B ++ C.erase w)) := by
    simp [List.append_assoc]
  have e2 : (A ++ B) ++ C = A ++ (B ++ C) := by rw [List.append_assoc]
  rw [e1, e2]
  refine List.Perm.append_left A ?_
  refine List.perm_middle.symm.trans ?_
  exact List.Perm.append_left B (List.perm_cons_erase h).symm

lemma dispatch_respawning (s : PoolState) : (dispatch s).respawning = s.respawning := rfl

lemma dispatch_size (s : PoolState) : (dispatch s).size = s.size := rfl

lemma dispatch_pendingDone (s : PoolState) : (dispatch s).pendingDone = s.pendingDone := rfl

lemma dispatch_resolutions (s : PoolState) : (dispatch s).resolutions = s.resolutions := rfl

lemma bumpStats_pendingDone (s : PoolState) (o : Outcome) :
    (bumpStats s o).pendingDone = s.pendingDone := by cases o <;> rfl

lemma bumpStats_resolutions (s : PoolState) (o : Outcome) :
    (bumpStats s o).resolutions = s.resolutions := by cases o <;> rfl

lemma bumpStats_respawning (s : PoolState) (o : Outcome) :
    (bumpStats s o).respawning = s.respawning := by cases o <;> rfl

lemma bumpStats_size (s : PoolState) (o : Outcome) :
    (bumpStats s o).size = s.size := by cases o <;> rfl

lemma checkDone_respawning (s : PoolState) : (checkDone s).respawning = s.respawning := by
  unfold checkDone
  split <;> rfl

lemma checkDone_size (s : PoolState) : (checkDone s).size = s.size := by
  unfold checkDone
  split <;> rfl

lemma checkDone_idle (s : PoolState) : (checkDone s).idle = s.idle := by
  unfold checkDone
  split <;> rfl

lemma checkDone_busy (s : PoolState) : (checkDone s).busy = s.busy := by
  unfold checkDone
  split <;> rfl

lemma checkDone_queue (s : PoolState) : (checkDone s).queue = s.queue := by
  unfold checkDone
  split <;> rfl

lemma checkDone_inProgress (s : PoolState) : (checkDone s).inProgress = s.inProgress := by
  unfold checkDone
  split <;> rfl

lemma poolInv_checkDone (s : PoolState) : poolInv (checkDone s) ↔ poolInv s := by
  unfold checkDone
  split <;> exact Iff.rfl

lemma poolInv_bumpStats (s : PoolState) (o : Outcome) :
    poolInv (bumpStats s o) ↔ poolInv s := by
  cases o <;> exact Iff.rfl

lemma dispatch_inv (s : PoolState) (h : poolInv s) : poolInv (dispatch s) := by
  obtain ⟨hn, hip, hsz⟩ := h
  refine ⟨?_, ?_, ?_⟩
  · show ((dispatchGo s.idle s.queue s.busy s.inProgress).idle ++
      (dispatchGo s.idle s.queue s.busy s.inProgress).busy ++ s.respawning).Nodup
    have hperm := List.Perm.append_right s.respawning
      (dispatchGo_perm s.idle s.queue s.busy s.inProgress)
    exact hperm.nodup_iff.mpr hn
  · exact dispatchGo_ip s.idle s.queue s.busy s.inProgress hip
  · show (dispatchGo s.idle s.queue s.busy s.inProgress).idle.length +
      (dispatchGo s.idle s.queue s.busy s.inProgress).busy.length +
      s.respawning.length = s.size
    have hlen := (dispatchGo_perm s.idle s.queue s.busy s.inProgress).length_eq
    simp only [List.length_append] at hlen
    omega

lemma poolInv_disjoint (s : PoolState) (h : poolInv s) :
    (∀ w ∈ s.busy, w ∉ s.idle ∧ w ∉ s.respawning) ∧
    (∀ w ∈ s.respawning, w ∉ s.idle ∧ w ∉ s.busy) ∧
    (∀ w ∈ s.idle, w ∉ s.busy) := by
  have hn := h.1
  have hd1 : List.Disjoint (s.idle ++ s.busy) s.respawning :=
    (List.nodup_append.mp hn).2.2
  have hn12 : (s.idle ++ s.busy).Nodup := (List.nodup_append.mp hn).1
  have hd2 : List.Disjoint s.idle s.busy := (List.nodup_append.mp hn12).2.2
  refine ⟨?_, ?_, ?_⟩
  · intro w hw
    refine ⟨fun hi => hd2 hi hw, fun hr => hd1 (List.mem_append_right s.idle hw) hr⟩
  · intro w hw
    refine ⟨fun hi => hd1 (List.mem_append_left s.busy hi) hw,
      fun hb => hd1 (List.mem_append_right s.idle hb) hw⟩
  · intro w hi hb
    exact hd2 hi hb

lemma step_inv (s : PoolState) (e : PoolEvent) (h : poolInv s) : poolInv (step s e) := by
  obtain ⟨hn, hip, hsz⟩ := h
  cases e with
  | enqueue jobs =>
    exact dispatch_inv _ ⟨hn, hip, hsz⟩
  | result w o =>
    simp only [step]
    split
    · next hw =>
      rw [poolInv_checkDone]
      apply dispatch_inv
      rw [poolInv_bumpStats]
      have hb1 : 0 < s.busy.length := List.length_pos_of_mem hw
      have hel : (s.busy.erase w).length = s.busy.length - 1 :=
        List.length_erase_of_mem hw
      refine ⟨?_, ?_, ?_⟩
      · show ((s.idle ++ [w]) ++ s.busy.erase w ++ s.respawning).Nodup
        have hperm := List.Perm.append_right s.respawning (perm_snoc_erase w s.idle s.busy hw)
        exact hperm.nodup_iff.mpr hn
      · show s.inProgress - 1 = (s.busy.erase w).length
        omega
      · show (s.idle ++ [w]).length + (s.busy.erase w).length + s.respawning.length = s.size
        simp only [List.length_append, List.length_singleton]
        omega
    · exact ⟨hn, hip, hsz⟩
  | fault w =>
    simp only [step]
    split
    · next hw =>
      have hb1 : 0 < s.busy.length := List.length_pos_of_mem hw
      have hel : (s.busy.erase w).length = s.busy.length - 1 :=
        List.length_erase_of_mem hw
      refine ⟨?_, ?_, ?_⟩
      · show (s.idle ++ s.busy.erase w ++ (s.respawning ++ [w])).Nodup
        exact (perm_fault_move w s.idle s.busy s.respawning hw).nodup_iff.mpr hn
      · show s.inProgress - 1 = (s.busy.erase w).length
        omega
      · show s.idle.length + (s.busy.erase w).length + (s.respawning ++ [w]).length = s.size
        simp only [List.length_append, List.length_singleton]
        omega
    · exact ⟨hn, hip, hsz⟩
  | ready w =>
    simp only [step]
    split
    · next hw =>
      have hr1 : 0 < s.respawning.length := List.length_pos_of_mem hw
      have hel : (s.respawning.erase w).length = s.respawning.length - 1 :=
        List.length_erase_of_mem hw
      rw [poolInv_checkDone]
      apply dispatch_inv
      refine ⟨?_, hip, ?_⟩
      · show ((s.idle ++ [w]) ++ s.busy ++ s.respawning.erase w).Nodup
        exact (perm_ready_move w s.idle s.busy s.respawning hw).nodup_iff.mpr hn
      · show (s.idle ++ [w]).length + s.busy.length + (s.respawning.erase w).length = s.size
        simp only [List.length_append, List.length_singleton]
        omega
    · exact ⟨hn, hip, hsz⟩
  | wait =>
    simp only [step]
    split
    · exact ⟨hn, hip, hsz⟩
    · exact ⟨hn, hip, hsz⟩

lemma foldl_inv : ∀ (evs : List PoolEvent) (s : PoolState), poolInv s →
    poolInv (List.foldl step s evs) := by
  intro evs
  induction evs with
  | nil => intro s h; exact h
  | cons e evs ih => intro s h; exact ih _ (step_inv s e h)

lemma initState_inv (size : Nat) : poolInv (initState size) := by
  refine ⟨?_, rfl, ?_⟩
  · show (List.range' 1 size ++ [] ++ []).Nodup
    simp [List.nodup_range']
  · show (List.range' 1 size).length + 0 + 0 = size
    simp [List.length_range']

lemma step_size (s : PoolState) (e : PoolEvent) : (step s e).size = s.size := by
  cases e with
  | enqueue jobs => rfl
  | result w o =>
    simp only [step]
    split
    · rw [checkDone_size, dispatch_size, bumpStats_size]
    · rfl
  | fault w =>
    simp only [step]
    split <;> rfl
  | ready w =>
    simp only [step]
    split
    · rw [checkDone_size, dispatch_size]
    · rfl
  | wait =>
    simp only [step]
    split <;> rfl

lemma foldl_size : ∀ (evs : List PoolEvent) (s : PoolState),
    (List.foldl step s evs).size = s.size := by
  intro evs
  induction evs with
  | nil => intro s; rfl
  | cons e evs ih =>
    intro s
    rw [List.foldl_cons, ih, step_size]

/- ───────────────────── claim C5 ───────────────────── -/

/-- Claim C5: in every reachable coordinator state, the in-flight count never
exceeds the pool size, no worker holds two unresolved downloads (the busy
list has no duplicates), and no idle worker still holds an unresolved
download — so dispatch, which only draws from the idle list, never sends a
`download` to a worker with one outstanding. -/
theorem c5_pool_invariants (size : Nat) (evs : List PoolEvent) :
    (List.foldl step (initState size) evs).inProgress ≤ size ∧
    (List.foldl step (initState size) evs).busy.Nodup ∧
    ∀ w ∈ (List.foldl step (initState size) evs).idle,
      w ∉ (List.foldl step (initState size) evs).busy := by
  have h := foldl_inv evs (initState size) (initState_inv size)
  have hsize : (List.foldl step (initState size) evs).size = size :=
    foldl_size evs (initState size)
  obtain ⟨hn, hip, hsz⟩ := h
  refine ⟨?_, ?_, ?_⟩
  · rw [hip]
    omega
  · exact ((List.nodup_append.mp ((List.nodup_append.mp hn).1)).2.1)
  · exact (poolInv_disjoint _ ⟨hn, hip, hsz⟩).2.2

/-- Witness for C5: pool of size 2 after enqueuing one job — one worker busy,
the other idle and not busy. -/
theorem c5_pool_invariants_witness :
    (List.foldl step (initState 2) [PoolEvent.enqueue [0]]).inProgress ≤ 2 ∧
    (List.foldl step (initState 2) [PoolEvent.enqueue [0]]).busy.Nodup ∧
    (2 ∈ (List.foldl step (initState 2) [PoolEvent.enqueue [0]]).idle →
      2 ∉ (List.foldl step (initState 2) [PoolEvent.enqueue [0]]).busy) := by
  have h := c5_pool_invariants 2 [PoolEvent.enqueue [0]]
  exact ⟨h.1, h.2.1, fun hm => h.2.2 2 hm⟩

/- ───────────────────── claims C6 and C7 ───────────────────── -/

lemma checkDone_of_notPending (s : PoolState) (hp : s.pendingDone = false) :
    checkDone s = s := by
  unfold checkDone
  split
  · next hcond =>
    rw [hp] at hcond
    exact absurd hcond.2.2 (by simp)
  · rfl

lemma checkDone_or (s : PoolState) :
    checkDone s = s ∨
    (s.pendingDone = true ∧ (checkDone s).pendingDone = false ∧
      (checkDone s).resolutions = s.resolutions + 1) := by
  unfold checkDone
  split
  · next hcond => exact Or.inr ⟨hcond.2.2, rfl, rfl⟩
  · exact Or.inl rfl

lemma step_no_resolution (s : PoolState) (e : PoolEvent)
    (hp : s.pendingDone = false) (hne : e ≠ PoolEvent.wait) :
    (step s e).pendingDone = false ∧ (step s e).resolutions = s.resolutions := by
  cases e with
  | enqueue jobs => exact ⟨hp, rfl⟩
  | result w o =>
    simp only [step]
    split
    · rw [checkDone_of_notPending _
        (by rw [dispatch_pendingDone, bumpStats_pendingDone]; exact hp)]
      constructor
      · rw [dispatch_pendingDone, bumpStats_pendingDone]
        exact hp
      · rw [dispatch_resolutions, bumpStats_resolutions]
    · exact ⟨hp, rfl⟩
  | fault w =>
    simp only [step]
    split
    · exact ⟨hp, rfl⟩
    · exact ⟨hp, rfl⟩
  | ready w =>
    simp only [step]
    split
    · rw [checkDone_of_notPending _ (by rw [dispatch_pendingDone]; exact hp)]
      exact ⟨hp, rfl⟩
    · exact ⟨hp, rfl⟩
  | wait => exact absurd rfl hne

lemma step_resolution_cases (s : PoolState) (e : PoolEvent)
    (hp : s.pendingDone = true) (hne : e ≠ PoolEvent.wait) :
    ((step s e).pendingDone = true ∧ (step s e).resolutions = s.resolutions) ∨
    ((step s e).pendingDone = false ∧ (step s e).resolutions = s.resolutions + 1) := by
  cases e with
  | enqueue jobs => exact Or.inl ⟨hp, rfl⟩
  | result w o =>
    simp only [step]
    split
    · rcases checkDone_or (dispatch (bumpStats
        { s with
          inProgress := s.inProgress - 1
          busy := s.busy.erase w
          idle := s.idle ++ [w] } o)) with hck | hck
      · rw [hck]
        refine Or.inl ⟨?_, ?_⟩
        · rw [dispatch_pendingDone, bumpStats_pendingDone]
          exact hp
        · rw [dispatch_resolutions, bumpStats_resolutions]
      · right
        refine ⟨hck.2.1, ?_⟩
        rw [hck.2.2, dispatch_resolutions, bumpStats_resolutions]
    · exact Or.inl ⟨hp, rfl⟩
  | fault w =>
    simp only [step]
    split
    · exact Or.inl ⟨hp, rfl⟩
    · exact Or.inl ⟨hp, rfl⟩
  | ready w =>
    simp only [step]
    split
    · rcases checkDone_or (dispatch
        { s with
          respawning := s.respawning.erase w
          idle := s.idle ++ [w] }) with hck | hck
      · rw [hck]
        exact Or.inl ⟨hp, rfl⟩
      · right
        refine ⟨hck.2.1, ?_⟩
        rw [hck.2.2, dispatch_resolutions]
    · exact Or.inl ⟨hp, rfl⟩
  | wait => exact absurd rfl hne

lemma foldl_no_resolution : ∀ (evs : List PoolEvent) (s : PoolState),
    s.pendingDone = false → (∀ e ∈ evs, e ≠ PoolEvent.wait) →
    (List.foldl step s evs).pendingDone = false ∧
    (List.foldl step s evs).resolutions = s.resolutions := by
  intro evs
  induction evs with
  | nil => intro s hp _; exact ⟨hp, rfl⟩
  | cons e evs ih =>
    intro s hp hne
    have h1 := step_no_resolution s e hp (hne e (List.mem_cons_self e evs))
    have h2 := ih (step s e) h1.1 (fun e' he' => hne e' (List.mem_cons_of_mem e he'))
    exact ⟨h2.1, by rw [List.foldl_cons, h2.2, h1.2]⟩

lemma foldl_resolution_once : ∀ (evs : List PoolEvent) (s : PoolState),
    s.pendingDone = true → (∀ e ∈ evs, e ≠ PoolEvent.wait) →
    ((List.foldl step s evs).pendingDone = true ∧
      (List.foldl step s evs).resolutions = s.resolutions) ∨
    ((List.foldl step s evs).pendingDone = false ∧
      (List.foldl step s evs).resolutions = s.resolutions + 1) := by
  intro evs
  induction evs with
  | nil => intro s hp _; exact Or.inl ⟨hp, rfl⟩
  | cons e evs ih =>
    intro s hp hne
    rcases step_resolution_cases s e hp (hne e (List.mem_cons_self e evs)) with h1 | h1
    · rcases ih (step s e) h1.1 (fun e' he' => hne e' (List.mem_cons_of_mem e he')) with h2 | h2
      · exact Or.inl ⟨h2.1, by rw [List.foldl_cons, h2.2, h1.2]⟩
      · exact Or.inr ⟨h2.1, by rw [List.foldl_cons, h2.2, h1.2]⟩
    · have h2 := foldl_no_resolution evs (step s e) h1.1
        (fun e' he' => hne e' (List.mem_cons_of_mem e he'))
      exact Or.inr ⟨h2.1, by rw [List.foldl_cons, h2.2, h1.2]⟩

/-- Counterexample for C6: pool of size 1; one job is dispatched, then
`waitUntilDone` registers, then the busy worker faults. At that point the
queue is empty and the in-flight count is zero — the first moment both are
true after the call — yet the promise has not resolved (the fault handler
runs no completion check); it resolves only later, at the replacement's
`ready`. -/
theorem c6_counterexample :
    (List.foldl step (initState 1)
      [PoolEvent.enqueue [0], PoolEvent.wait, PoolEvent.fault 1]).inProgress = 0 ∧
    (List.foldl step (initState 1)
      [PoolEvent.enqueue [0], PoolEvent.wait, PoolEvent.fault 1]).queue = [] ∧
    (List.foldl step (initState 1)
      [PoolEvent.enqueue [0], PoolEvent.wait, PoolEvent.fault 1]).pendingDone = true ∧
    (List.foldl step (initState 1)
      [PoolEvent.enqueue [0], PoolEvent.wait, PoolEvent.fault 1]).resolutions = 0 ∧
    (step (List.foldl step (initState 1)
      [PoolEvent.enqueue [0], PoolEvent.wait, PoolEvent.fault 1])
      (PoolEvent.ready 1)).resolutions = 1 := by
  decide

/-- Claim C6 (amended): `waitUntilDone` resolves immediately when called with
an empty queue and zero in-flight count, and otherwise registers a single
pending notification; that notification resolves at most once over any
subsequent events (exactly once if it resolves at all, its flag clearing with
it), and it resolves precisely at the completion checks — run after a
`result` and after a replacement's `ready` — whenever the queue is empty and
the in-flight count is zero there. A fault that zeroes the in-flight count
runs no completion check, deferring resolution to the replacement's `ready`. -/
theorem c6_wait_until_done (s0 : PoolState) :
    (s0.inProgress = 0 → s0.queue = [] →
      step s0 PoolEvent.wait = { s0 with resolutions := s0.resolutions + 1 }) ∧
    (¬(s0.inProgress = 0 ∧ s0.queue = []) →
      step s0 PoolEvent.wait = { s0 with pendingDone := true }) ∧
    (∀ (evs : List PoolEvent), s0.pendingDone = true →
      (∀ e ∈ evs, e ≠ PoolEvent.wait) →
      (((List.foldl step s0 evs).pendingDone = true ∧
        (List.foldl step s0 evs).resolutions = s0.resolutions) ∨
       ((List.foldl step s0 evs).pendingDone = false ∧
        (List.foldl step s0 evs).resolutions = s0.resolutions + 1))) ∧
    (∀ (w : Nat) (o : Outcome), s0.pendingDone = true → w ∈ s0.busy →
      (step s0 (PoolEvent.result w o)).inProgress = 0 →
      (step s0 (PoolEvent.result w o)).queue = [] →
      (step s0 (PoolEvent.result w o)).pendingDone = false ∧
      (step s0 (PoolEvent.result w o)).resolutions = s0.resolutions + 1) ∧
    (∀ (w : Nat), s0.pendingDone = true → w ∈ s0.respawning →
      (step s0 (PoolEvent.ready w)).inProgress = 0 →
      (step s0 (PoolEvent.ready w)).queue = [] →
      (step s0 (PoolEvent.ready w)).pendingDone = false ∧
      (step s0 (PoolEvent.ready w)).resolutions = s0.resolutions + 1) := by
  refine ⟨?_, ?_, ?_, ?_, ?_⟩
  · intro h1 h2
    simp only [step]
    rw [if_pos ⟨h1, h2⟩]
  · intro h
    simp only [step]
    rw [if_neg h]
  · intro evs hp hne
    exact foldl_resolution_once evs s0 hp hne
  · intro w o hp hw h0 hq
    simp only [step, if_pos hw] at h0 hq ⊢
    rw [checkDone_inProgress] at h0
    rw [checkDone_queue] at hq
    have hpd : (dispatch (bumpStats
        { s0 with
          inProgress := s0.inProgress - 1
          busy := s0.busy.erase w
          idle := s0.idle ++ [w] } o)).pendingDone = true := by
      rw [dispatch_pendingDone, bumpStats_pendingDone]
      exact hp
    unfold checkDone
    rw [if_pos ⟨h0, hq, hpd⟩]
    refine ⟨rfl, ?_⟩
    show (dispatch (bumpStats
      { s0 with
        inProgress := s0.inProgress - 1
        busy := s0.busy.erase w
        idle := s0.idle ++ [w] } o)).resolutions + 1 = s0.resolutions + 1
    rw [dispatch_resolutions, bumpStats_resolutions]
  · intro w hp hw h0 hq
    simp only [step, if_pos hw] at h0 hq ⊢
    rw [checkDone_inProgress] at h0
    rw [checkDone_queue] at hq
    have hpd : (dispatch
        { s0 with
          respawning := s0.respawning.erase w
          idle := s0.idle ++ [w] }).pendingDone = true := hp
    unfold checkDone
    rw [if_pos ⟨h0, hq, hpd⟩]
    exact ⟨rfl, rfl⟩

/-- Witness for the amended C6: from the state reached by dispatching one job
and registering `waitUntilDone`, running a fault followed by the
replacement's `ready` resolves the notification exactly once. -/
theorem c6_wait_until_done_witness :
    ((List.foldl step
        (List.foldl step (initState 1) [PoolEvent.enqueue [0], PoolEvent.wait])
        [PoolEvent.fault 1, PoolEvent.ready 1]).pendingDone = true ∧
      (List.foldl step
        (List.foldl step (initState 1) [PoolEvent.enqueue [0], PoolEvent.wait])
        [PoolEvent.fault 1, PoolEvent.ready 1]).resolutions =
        (List.foldl step (initState 1) [PoolEvent.enqueue [0], PoolEvent.wait]).resolutions) ∨
    ((List.foldl step
        (List.foldl step (initState 1) [PoolEvent.enqueue [0], PoolEvent.wait])
        [PoolEvent.fault 1, PoolEvent.ready 1]).pendingDone = false ∧
      (List.foldl step
        (List.foldl step (initState 1) [PoolEvent.enqueue [0], PoolEvent.wait])
        [PoolEvent.fault 1, PoolEvent.ready 1]).resolutions =
        (List.foldl step (initState 1) [PoolEvent.enqueue [0], PoolEvent.wait]).resolutions + 1) :=
  (c6_wait_until_done
    (List.foldl step (initState 1) [PoolEvent.enqueue [0], PoolEvent.wait])).2.2.1
    [PoolEvent.fault 1, PoolEvent.ready 1] (by decide) (by decide)

lemma step_respawning_stable (s : PoolState) (e : PoolEvent) (w : Nat)
    (hw : w ∈ s.respawning) (hne : e ≠ PoolEvent.ready w) :
    w ∈ (step s e).respawning := by
  cases e with
  | enqueue jobs =>
    show w ∈ (dispatch _).respawning
    rw [dispatch_respawning]
    exact hw
  | result v o =>
    simp only [step]
    split
    · rw [checkDone_respawning, dispatch_respawning, bumpStats_respawning]
      exact hw
    · exact hw
  | fault v =>
    simp only [step]
    split
    · exact List.mem_append_left _ hw
    · exact hw
  | ready v =>
    have hvw : w ≠ v := by
      intro hv
      exact hne (by rw [hv])
    simp only [step]
    split
    · rw [checkDone_respawning, dispatch_respawning]
      exact (List.mem_erase_of_ne hvw).mpr hw
    · exact hw
  | wait =>
    simp only [step]
    split
    · exact hw
    · exact hw

lemma foldl_respawning_stable : ∀ (evs : List PoolEvent) (s : PoolState) (w : Nat),
    w ∈ s.respawning → (∀ e ∈ evs, e ≠ PoolEvent.ready w) →
    w ∈ (List.foldl step s evs).respawning := by
  intro evs
  induction evs with
  | nil => intro s w hw _; exact hw
  | cons e evs ih =>
    intro s w hw hne
    exact ih (step s e) w
      (step_respawning_stable s e w hw (hne e (List.mem_cons_self e evs)))
      (fun e' he' => hne e' (List.mem_cons_of_mem e he'))

/-- Claim C7: a fault of a busy worker counts exactly one failed job (the
other outcome counters untouched), puts exactly the faulted identity into the
respawn set, and the replacement — carrying the same identity — is neither
idle nor busy until its `ready` arrives, across any events not containing
that `ready`; the `ready` handler is what appends it to the idle list (then
dispatches and runs the completion check). -/
theorem c7_fault_respawn (size w : Nat) (evs evs2 : List PoolEvent)
    (s s1 s2 : PoolState)
    (hs : s = List.foldl step (initState size) evs)
    (hs1 : s1 = step s (PoolEvent.fault w))
    (hs2 : s2 = List.foldl step s1 evs2)
    (hb : w ∈ s.busy)
    (hnr : ∀ e ∈ evs2, e ≠ PoolEvent.ready w) :
    s1.failed = s.failed + 1 ∧
    s1.succeeded = s.succeeded ∧
    s1.skipped = s.skipped ∧
    s1.respawning = s.respawning ++ [w] ∧
    w ∉ s1.idle ∧
    w ∉ s1.busy ∧
    w ∈ s2.respawning ∧
    w ∉ s2.idle ∧
    w ∉ s2.busy ∧
    step s2 (PoolEvent.ready w) =
      checkDone (dispatch
        { s2 with respawning := s2.respawning.erase w, idle := s2.idle ++ [w] }) := by
  have hinv : poolInv s := by
    rw [hs]
    exact foldl_inv evs (initState size) (initState_inv size)
  have hrec : s1 = { s with
      inProgress := s.inProgress - 1
      failed := s.failed + 1
      busy := s.busy.erase w
      respawning := s.respawning ++ [w] } := by
    rw [hs1]
    simp only [step, if_pos hb]
  have hbn : s.busy.Nodup :=
    (List.nodup_append.mp ((List.nodup_append.mp hinv.1).1)).2.1
  have hinv1 : poolInv s1 := by
    rw [hs1]
    exact step_inv s (PoolEvent.fault w) hinv
  have hw1 : w ∈ s1.respawning := by
    rw [hrec]
    exact List.mem_append_right _ (by simp)
  have hinv2 : poolInv s2 := by
    rw [hs2]
    exact foldl_inv evs2 s1 hinv1
  have hw2 : w ∈ s2.respawning := by
    rw [hs2]
    exact foldl_respawning_stable evs2 s1 w hw1 hnr
  have hdisj2 := (poolInv_disjoint s2 hinv2).2.1 w hw2
  refine ⟨?_, ?_, ?_, ?_, ?_, ?_, hw2, hdisj2.1, hdisj2.2, ?_⟩
  · rw [hrec]
  · rw [hrec]
  · rw [hrec]
  · rw [hrec]
  · rw [hrec]
    exact ((poolInv_disjoint s hinv).1 w hb).1
  · rw [hrec]
    intro hmem
    exact ((List.Nodup.mem_erase_iff hbn).mp hmem).1 rfl
  · simp only [step, if_pos hw2]

/-- Witness for C7: pool of size 1, worker 1 busy with the only job; after its
fault the failed counter is bumped by one and worker 1 sits in the respawn
set across an unrelated enqueue. -/
theorem c7_fault_respawn_witness :
    (step (List.foldl step (initState 1) [PoolEvent.enqueue [0]]) (PoolEvent.fault 1)).failed =
      (List.foldl step (initState 1) [PoolEvent.enqueue [0]]).failed + 1 ∧
    (step (List.foldl step (initState 1) [PoolEvent.enqueue [0]]) (PoolEvent.fault 1)).respawning =
      (List.foldl step (initState 1) [PoolEvent.enqueue [0]]).respawning ++ [1] ∧
    1 ∈ (List.foldl step
      (step (List.foldl step (initState 1) [PoolEvent.enqueue [0]]) (PoolEvent.fault 1))
      [PoolEvent.enqueue [7]]).respawning := by
  have h := c7_fault_respawn 1 1 [PoolEvent.enqueue [0]] [PoolEvent.enqueue [7]]
    (List.foldl step (initState 1) [PoolEvent.enqueue [0]])
    (step (List.foldl step (initState 1) [PoolEvent.enqueue [0]]) (PoolEvent.fault 1))
    (List.foldl step
      (step (List.foldl step (initState 1) [PoolEvent.enqueue [0]]) (PoolEvent.fault 1))
      [PoolEvent.enqueue [7]])
    rfl rfl rfl (by decide) (by decide)
  exact ⟨h.1, h.2.2.2.1, h.2.2.2.2.2.2.1⟩

/- ───────────────────── claim C10: sanitizeFilename ───────────────────── -/

lemma spacesOk_tail (c : Char) (l : List Char) (h : spacesOk (c :: l) = true) :
    spacesOk l = true := by
  simp only [spacesOk, List.all_cons, Bool.and_eq_true] at h
  exact h.2

lemma noAdjWs_tail (a : Char) (l : List Char) (h : noAdjWs (a :: l) = true) :
    noAdjWs l = true := by
  cases l with
  | nil => rfl
  | cons b cs =>
    simp only [noAdjWs, Bool.and_eq_true] at h
    exact h.2

lemma mem_collapseWsAux :
    ∀ (l : List Char) (b : Bool) (c : Char), c ∈ collapseWsAux b l → c = ' ' ∨ c ∈ l := by
  intro l
  induction l with
  | nil => intro b c h; simp [collapseWsAux] at h
  | cons d l ih =>
    intro b c h
    by_cases hd : isJsSpace d = true
    · cases b with
      | true =>
        rw [collapseWsAux, if_pos hd, if_pos rfl] at h
        rcases ih true c h with h1 | h1
        · exact Or.inl h1
        · exact Or.inr (List.mem_cons_of_mem d h1)
      | false =>
        rw [collapseWsAux, if_pos hd] at h
        simp only [Bool.false_eq_true, if_false] at h
        rcases List.mem_cons.mp h with h1 | h1
        · exact Or.inl h1
        · rcases ih true c h1 with h2 | h2
          · exact Or.inl h2
          · exact Or.inr (List.mem_cons_of_mem d h2)
    · rw [collapseWsAux, if_neg hd] at h
      rcases List.mem_cons.mp h with h1 | h1
      · exact Or.inr (h1 ▸ List.mem_cons_self d l)
      · rcases ih false c h1 with h2 | h2
        · exact Or.inl h2
        · exact Or.inr (List.mem_cons_of_mem d h2)

lemma spacesOk_collapseWsAux : ∀ (l : List Char) (b : Bool),
    spacesOk (collapseWsAux b l) = true := by
  intro l
  induction l with
  | nil => intro b; rfl
  | cons d l ih =>
    intro b
    by_cases hd : isJsSpace d = true
    · cases b with
      | true =>
        rw [collapseWsAux, if_pos hd, if_pos rfl]
        exact ih true
      | false =>
        rw [collapseWsAux, if_pos hd]
        simp only [Bool.false_eq_true, if_false]
        simpa [spacesOk, List.all_cons] using ih true
    · rw [collapseWsAux, if_neg hd]
      simp only [spacesOk, List.all_cons, Bool.and_eq_true]
      exact ⟨by simp [hd], ih false⟩

lemma notBad_collapseWsAux (l : List Char) (b : Bool)
    (h : l.all (fun c => !(badChar c)) = true) :
    (collapseWsAux b l).all (fun c => !(badChar c)) = true := by
  rw [List.all_eq_true] at h ⊢
  intro c hc
  rcases mem_collapseWsAux l b c hc with h1 | h1
  · subst h1; decide
  · exact h c h1

lemma collapse_shape : ∀ l : List Char,
    (noAdjWs (collapseWsAux true l) = true ∧ headNotWs (collapseWsAux true l) = true) ∧
    noAdjWs (collapseWsAux false l) = true := by
  intro l
  induction l with
  | nil => exact ⟨⟨rfl, rfl⟩, rfl⟩
  | cons d l ih =>
    by_cases hd : isJsSpace d = true
    · refine ⟨⟨?_, ?_⟩, ?_⟩
      · rw [collapseWsAux, if_pos hd, if_pos rfl]
        exact ih.1.1
      · rw [collapseWsAux, if_pos hd, if_pos rfl]
        exact ih.1.2
      · rw [collapseWsAux, if_pos hd]
        simp only [Bool.false_eq_true, if_false]
        cases hXl : collapseWsAux true l with
        | nil => rfl
        | cons x xs =>
          have hx : isJsSpace x = false := by
            have := hXl ▸ ih.1.2
            simpa [headNotWs] using this
          have hXn : noAdjWs (x :: xs) = true := hXl ▸ ih.1.1
          simp [noAdjWs, hx, hXn]
    · have key : noAdjWs (d :: collapseWsAux false l) = true := by
        cases hYl : collapseWsAux false l with
        | nil => rfl
        | cons y ys =>
          have hYn : noAdjWs (y :: ys) = true := hYl ▸ ih.2
          simp [noAdjWs, hd, hYn]
      refine ⟨⟨?_, ?_⟩, ?_⟩
      · rw [collapseWsAux, if_neg hd]
        exact key
      · rw [collapseWsAux, if_neg hd]
        simp [headNotWs, hd]
      · rw [collapseWsAux, if_neg hd]
        exact key

lemma noAdjWs_take : ∀ (l : List Char) (n : Nat),
    noAdjWs l = true → noAdjWs (l.take n) = true := by
  intro l
  induction l with
  | nil => intro n _; simp [noAdjWs]
  | cons a l ih =>
    intro n h
    cases n with
    | zero => rfl
    | succ m =>
      cases l with
      | nil => simp [List.take, noAdjWs]
      | cons b l' =>
        cases m with
        | zero => simp [List.take, noAdjWs]
        | succ m' =>
          simp only [List.take, noAdjWs, Bool.and_eq_true] at h ⊢
          exact ⟨h.1, by simpa [List.take] using ih (m' + 1) h.2⟩

lemma headNotWs_take (l : List Char) (n : Nat) (h : headNotWs l = true) :
    headNotWs (l.take n) = true := by
  cases l with
  | nil => simp [headNotWs]
  | cons a l =>
    cases n with
    | zero => rfl
    | succ m => simpa [List.take, headNotWs] using h

lemma trimEndWs_isTake : ∀ l : List Char, ∃ n, trimEndWs l = l.take n := by
  intro l
  induction l with
  | nil => exact ⟨0, rfl⟩
  | cons c l ih =>
    obtain ⟨n, hn⟩ := ih
    cases h : trimEndWs l with
    | nil =>
      by_cases hc : isJsSpace c = true
      · exact ⟨0, by simp [trimEndWs, h, hc]⟩
      · exact ⟨1, by simp [trimEndWs, h, hc, List.take]⟩
    | cons d r =>
      refine ⟨n + 1, ?_⟩
      rw [trimEndWs, h]
      rw [h] at hn
      simp [List.take, ← hn]

lemma lastNotWs_trimEndWs : ∀ l : List Char, lastNotWs (trimEndWs l) = true := by
  intro l
  induction l with
  | nil => rfl
  | cons c l ih =>
    cases h : trimEndWs l with
    | nil =>
      by_cases hc : isJsSpace c = true
      · simp [trimEndWs, h, hc, lastNotWs]
      · simp [trimEndWs, h, hc, lastNotWs]
    | cons d r =>
      rw [trimEndWs, h]
      show lastNotWs (d :: r) = true
      rw [← h]
      exact ih

lemma all_of_sublist (p : Char → Bool) (l₁ l₂ : List Char) (hs : l₁.Sublist l₂)
    (h : l₂.all p = true) : l₁.all p = true := by
  rw [List.all_eq_true] at h ⊢
  intro c hc
  exact h c (hs.subset hc)

lemma noAdjWs_dropWhile : ∀ l : List Char,
    noAdjWs l = true → noAdjWs (l.dropWhile isJsSpace) = true := by
  intro l
  induction l with
  | nil => intro h; exact h
  | cons c l ih =>
    intro h
    by_cases hc : isJsSpace c = true
    · simpa [List.dropWhile_cons, hc] using ih (noAdjWs_tail c l h)
    · simpa [List.dropWhile_cons, hc] using h

lemma headNotWs_dropWhile : ∀ l : List Char,
    headNotWs (l.dropWhile isJsSpace) = true := by
  intro l
  induction l with
  | nil => rfl
  | cons c l ih =>
    by_cases hc : isJsSpace c = true
    · simpa [List.dropWhile_cons, hc] using ih
    · simp [List.dropWhile_cons, hc, headNotWs]

lemma removeBad_eq_self (l : List Char) (h : l.all (fun c => !(badChar c)) = true) :
    removeBad l = l := by
  rw [removeBad, List.filter_eq_self]
  rw [List.all_eq_true] at h
  exact h

lemma dropWhile_eq_self_of_headNotWs (l : List Char) (h : headNotWs l = true) :
    l.dropWhile isJsSpace = l := by
  cases l with
  | nil => rfl
  | cons c l =>
    have hc : isJsSpace c = false := by simpa [headNotWs] using h
    simp [List.dropWhile_cons, hc]

lemma trimEndWs_eq_self_of_lastNotWs : ∀ l : List Char,
    lastNotWs l = true → trimEndWs l = l := by
  intro l
  induction l with
  | nil => intro _; rfl
  | cons c l ih =>
    intro h
    cases l with
    | nil =>
      have hc : isJsSpace c = false := by simpa [lastNotWs] using h
      simp [trimEndWs, hc]
    | cons d l' =>
      have ht : trimEndWs (d :: l') = d :: l' := ih (by simpa [lastNotWs] using h)
      rw [trimEndWs, ht]

lemma collapse_fix : ∀ l : List Char,
    spacesOk l = true → noAdjWs l = true → collapseWsAux false l = l := by
  intro l
  induction l with
  | nil => intro _ _; rfl
  | cons c l ih =>
    intro h2 h3
    by_cases hc : isJsSpace c = true
    · have hsp : c = ' ' := by
        have := h2
        simp only [spacesOk, List.all_cons, Bool.and_eq_true, Bool.or_eq_true] at this
        rcases this.1 with h | h
        · rw [hc] at h; exact absurd h (by simp)
        · exact of_decide_eq_true h
      rw [collapseWsAux, if_pos hc]
      simp only [Bool.false_eq_true, if_false]
      cases l with
      | nil =>
        rw [hsp]
        rfl
      | cons d l' =>
        have hdns : isJsSpace d = false := by
          simp only [noAdjWs, Bool.and_eq_true] at h3
          have := h3.1
          rw [hc] at this
          simpa using this
        have hrec : collapseWsAux false (d :: l') = d :: l' :=
          ih (spacesOk_tail c _ h2) (noAdjWs_tail c _ h3)
        rw [collapseWsAux, if_neg (by simp [hdns])] at hrec
        have hl' : collapseWsAux false l' = l' := by
          injection hrec
        rw [collapseWsAux, if_neg (by simp [hdns]), hl', hsp]
    · rw [collapseWsAux, if_neg hc]
      rw [ih (spacesOk_tail c _ h2) (noAdjWs_tail c _ h3)]

lemma sanitizeList_shape (l : List Char) :
    (sanitizeList l).all (fun c => !(badChar c)) = true ∧
    spacesOk (sanitizeList l) = true ∧
    noAdjWs (sanitizeList l) = true ∧
    headNotWs (sanitizeList l) = true ∧
    lastNotWs (sanitizeList l) = true := by
  have hA : (removeBad l).all (fun c => !(badChar c)) = true := by
    rw [List.all_eq_true]
    intro c hc
    have hm := List.mem_filter.mp hc
    simpa using hm.2
  have hB1 : (collapseWs (removeBad l)).all (fun c => !(badChar c)) = true :=
    notBad_collapseWsAux _ false hA
  have hB2 : spacesOk (collapseWs (removeBad l)) = true := spacesOk_collapseWsAux _ false
  have hB3 : noAdjWs (collapseWs (removeBad l)) = true := (collapse_shape _).2
  have hsub : ((collapseWs (removeBad l)).dropWhile isJsSpace).Sublist
      (collapseWs (removeBad l)) := List.dropWhile_sublist _
  have hC1 := all_of_sublist _ _ _ hsub hB1
  have hC2 : spacesOk ((collapseWs (removeBad l)).dropWhile isJsSpace) = true :=
    all_of_sublist _ _ _ hsub hB2
  have hC3 := noAdjWs_dropWhile _ hB3
  have hC4 := headNotWs_dropWhile (collapseWs (removeBad l))
  obtain ⟨n, hn⟩ := trimEndWs_isTake ((collapseWs (removeBad l)).dropWhile isJsSpace)
  have htake : (trimEndWs ((collapseWs (removeBad l)).dropWhile isJsSpace)).Sublist
      ((collapseWs (removeBad l)).dropWhile isJsSpace) := by
    rw [hn]; exact List.take_sublist _ _
  refine ⟨all_of_sublist _ _ _ htake hC1, all_of_sublist _ _ _ htake hC2, ?_, ?_, ?_⟩
  · show noAdjWs (trimEndWs _) = true
    rw [hn]
    exact noAdjWs_take _ n hC3
  · show headNotWs (trimEndWs _) = true
    rw [hn]
    exact headNotWs_take _ n hC4
  · exact lastNotWs_trimEndWs _

lemma sanitizeList_fix (l : List Char)
    (h1 : l.all (fun c => !(badChar c)) = true)
    (h2 : spacesOk l = true) (h3 : noAdjWs l = true)
    (h4 : headNotWs l = true) (h5 : lastNotWs l = true) :
    sanitizeList l = l := by
  unfold sanitizeList trimWs collapseWs
  rw [removeBad_eq_self l h1, collapse_fix l h2 h3,
    dropWhile_eq_self_of_headNotWs l h4, trimEndWs_eq_self_of_lastNotWs l h5]

/-- Claim C10: `sanitizeFilename` is idempotent, its output contains none of
the nine forbidden filename characters and no leading or trailing whitespace,
and the filename tested by the already-downloaded check equals the filename
written by `buildEpub` for the same title. -/
theorem c10_sanitize_filename (s : String) :
    sanitizeFilename (sanitizeFilename s) = sanitizeFilename s ∧
    (sanitizeFilename s).data.all (fun c => !(badChar c)) = true ∧
    headNotWs (sanitizeFilename s).data = true ∧
    lastNotWs (sanitizeFilename s).data = true ∧
    epubExistsFilename s = buildEpubFilename s := by
  obtain ⟨h1, h2, h3, h4, h5⟩ := sanitizeList_shape s.data
  refine ⟨?_, h1, h4, h5, rfl⟩
  show String.mk (sanitizeList (sanitizeList s.data)) = String.mk (sanitizeList s.data)
  rw [sanitizeList_fix _ h1 h2 h3 h4 h5]

end NovelDL
